import Mathlib

/-!
Verification of the chunked-range downloader in `src/main.rs` of
duolok/buggy_server.

The Rust program is embedded shallowly:

* raw bytes on the wire are `List Nat` (one `Nat` per byte);
* decoded text (`&str` in Rust) is `List Char`;
* `std::result::Result<T, Box<dyn Error>>` becomes `Except DlError T`,
  with one `DlError` constructor per distinct error value the source
  can produce;
* the TCP exchange (`send_request`) is treated as an oracle: each
  theorem quantifies over the raw response bytes the server returns,
  so `download_chunk` and `get_total_length` here take the response
  bytes that `send_request` would have produced;
* the `while` loop of `main` becomes `runLoop`, consuming one oracle
  response per iteration from a list; if the list runs out while the
  loop guard still holds, the outcome `moreNeeded` records that the
  loop would keep going.

Every definition follows the corresponding Rust function line by line;
deviations forced by the embedding are noted in doc comments.
-/

/-- Characters of a Lean string literal; used to build concrete `&str`
test inputs (all of them ASCII). -/
def chars (s : String) : List Char := s.data

/-- Bytes of an ASCII Lean string literal. For ASCII text the scalar
values coincide with the UTF-8 bytes, and every concrete input built
with this helper is ASCII. -/
def bytesOf (s : String) : List Nat := s.data.map Char.toNat

/-- CHUNK_SIZE from `main.rs` line 10: `32 * 1024`. -/
def CHUNK_SIZE : Nat := 32 * 1024

/-- Error values produced by the source (`Box<dyn Error>` payloads),
one constructor per distinct error value:
`noHeaderEnd` = "Failed to find end of headers" (split_response);
`utf8Error` = the `str::from_utf8` error (split_response);
`emptyResponse` = "Empty response." (parse_status_code);
`invalidStatusLine` = "Invalid status line." (parse_status_code);
`intParseError` = the propagated `ParseIntError` of `parts[1].parse::<u16>()`;
`missingContentLength` = "Content-Length header not found";
`contentLengthParse` = "Failed to parse content-length: ...";
`unexpectedStatus c` = "Unexpected status code: c". -/
inductive DlError where
  | noHeaderEnd
  | utf8Error
  | emptyResponse
  | invalidStatusLine
  | intParseError
  | missingContentLength
  | contentLengthParse
  | unexpectedStatus (c : Nat)
deriving DecidableEq, Repr

/-- Code points with the Unicode White_Space property, the set used by
Rust `char::is_whitespace`. -/
def rustWhitespaceCodes : List Nat :=
  [9, 10, 11, 12, 13, 32, 133, 160, 5760,
   8192, 8193, 8194, 8195, 8196, 8197, 8198, 8199, 8200, 8201, 8202,
   8232, 8233, 8239, 8287, 12288]

/-- Rust `char::is_whitespace`. -/
def isRustWhitespace (c : Char) : Bool := rustWhitespaceCodes.contains c.toNat

/-- Rust `str::trim`: drop leading and trailing whitespace. -/
def trimChars (s : List Char) : List Char :=
  ((s.dropWhile isRustWhitespace).reverse.dropWhile isRustWhitespace).reverse

/-- ASCII fragment of Rust `str::to_lowercase`, applied character-wise.
The source only ever compares header names built from ASCII, where
Rust full Unicode lowercasing agrees with this map. -/
def lowerChar (c : Char) : Char :=
  if 'A' ≤ c ∧ c ≤ 'Z' then Char.ofNat (c.toNat + 32) else c

/-- Rust `str::to_lowercase` on ASCII text (see `lowerChar`). -/
def lowerChars (s : List Char) : List Char := s.map lowerChar

/-- Helper for `rustLines`: `acc` holds the current line reversed.
A single `\r` directly before the `\n` is stripped, as in Rust. -/
def dropTrailingCrRev (acc : List Char) : List Char :=
  match acc with
  | '\r' :: rest => rest
  | _ => acc

/-- Worker for `rustLines`. -/
def rustLinesGo (acc : List Char) : List Char → List (List Char)
  | [] => if acc.isEmpty then [] else [acc.reverse]
  | c :: rest =>
    if c = '\n' then (dropTrailingCrRev acc).reverse :: rustLinesGo [] rest
    else rustLinesGo (c :: acc) rest

/-- Rust `str::lines`: split at `\n`, stripping one `\r` directly
before each `\n`; a final line without terminator is kept as is, and a
trailing terminator produces no extra empty line. -/
def rustLines (s : List Char) : List (List Char) := rustLinesGo [] s

/-- Worker for `splitWS`. -/
def splitWSGo (acc : List Char) : List Char → List (List Char)
  | [] => if acc.isEmpty then [] else [acc.reverse]
  | c :: rest =>
    if isRustWhitespace c then
      if acc.isEmpty then splitWSGo [] rest
      else acc.reverse :: splitWSGo [] rest
    else splitWSGo (c :: acc) rest

/-- Rust `str::split_whitespace`: maximal runs of non-whitespace;
never yields an empty token. -/
def splitWS (s : List Char) : List (List Char) := splitWSGo [] s

/-- Rust `str::split_once(':')`: split at the first colon, which is
dropped; `none` when the string has no colon. -/
def splitOnceColon : List Char → Option (List Char × List Char)
  | [] => none
  | c :: rest =>
    if c = ':' then some ([], rest)
    else
      match splitOnceColon rest with
      | some (a, b) => some (c :: a, b)
      | none => none

/-- Decimal digit value of a character, if it is one. -/
def digitVal (c : Char) : Option Nat :=
  if '0' ≤ c ∧ c ≤ '9' then some (c.toNat - 48) else none

/-- Worker for `parseDigits`. -/
def parseDigitsGo (acc : Nat) : List Char → Option Nat
  | [] => some acc
  | c :: rest =>
    match digitVal c with
    | some d => parseDigitsGo (acc * 10 + d) rest
    | none => none

/-- Value of a non-empty all-digit string; `none` otherwise. -/
def parseDigits : List Char → Option Nat
  | [] => none
  | c :: rest => parseDigitsGo 0 (c :: rest)

/-- Rust `str::parse` for an unsigned integer of `bits` bits: an
optional leading `+`, then one or more ASCII decimal digits, and the
value must fit in the type; anything else (including overflow) is a
`ParseIntError`. `parse::<u16>` is `parseUIntRust 16`, `parse::<usize>`
is `parseUIntRust 64` (64-bit target). -/
def parseUIntRust (bits : Nat) (s : List Char) : Option Nat :=
  let t := match s with
    | '+' :: r => r
    | r => r
  match parseDigits t with
  | some n => if n < 2 ^ bits then some n else none
  | none => none

/-- `HashMap::insert`: the new binding shadows any previous one with
the same key (the map is read through `hmGet`, which takes the most
recent binding, exactly like the overwriting insert of `HashMap`). -/
def hmInsert (m : List (List Char × List Char)) (k v : List Char) :
    List (List Char × List Char) :=
  (k, v) :: m

/-- `HashMap::get`: most recent binding for the key, if any. -/
def hmGet (m : List (List Char × List Char)) (k : List Char) : Option (List Char) :=
  (m.find? (fun p => p.1 == k)).map (fun p => p.2)

/-- The key `"content-length"` looked up by the source. -/
def clKey : List Char := chars ("content-length")

/-- Loop of `parse_headers` (`main.rs` lines 118-125): stop at the
first line that is empty after trimming; split each other line at its
first colon, inserting trimmed lowercased key and trimmed value;
lines without a colon are skipped. -/
def parse_headers_lines (m : List (List Char × List Char)) :
    List (List Char) → List (List Char × List Char)
  | [] => m
  | l :: ls =>
    if (trimChars l).isEmpty then m
    else
      match splitOnceColon l with
      | some kv => parse_headers_lines (hmInsert m (lowerChars (trimChars kv.1)) (trimChars kv.2)) ls
      | none => parse_headers_lines m ls

/-- `parse_headers` (`main.rs` lines 115-128). The source wraps the
map in `Ok` but can never fail, so the embedding returns the map
directly. -/
def parse_headers (response : List Char) : List (List Char × List Char) :=
  parse_headers_lines [] (rustLines response)

/-- `parse_status_code` (`main.rs` lines 131-141): first line of the
header text, split on whitespace; exactly four fields are required
(`parts.len() != 4` fails), and the second field is parsed as `u16`
(its `ParseIntError` propagates via `?` as `intParseError`). -/
def parse_status_code (response : List Char) : Except DlError Nat :=
  match rustLines response with
  | [] => .error .emptyResponse
  | statusLine :: _ =>
    match splitWS statusLine with
    | [_, codeTok, _, _] =>
      match parseUIntRust 16 codeTok with
      | some c => .ok c
      | none => .error .intParseError
    | _ => .error .invalidStatusLine

/-- Index of the first window equal to `\r\n\r\n` (bytes 13 10 13 10),
as computed by `response.windows(4).position(...)` in the source. -/
def findSep : List Nat → Option Nat
  | 13 :: 10 :: 13 :: 10 :: _ => some 0
  | _ :: rest => (findSep rest).map (fun i => i + 1)
  | [] => none

/-- Continuation byte test for UTF-8. -/
def utf8Cont (b : Nat) : Bool := 128 ≤ b && b ≤ 191

/-- Worker for `utf8Decode`; the fuel only bounds recursion depth and
starts at the byte count, which suffices because every step consumes
at least one byte. -/
def utf8DecodeGo : Nat → List Nat → Option (List Char)
  | _, [] => some []
  | 0, _ :: _ => none
  | fuel + 1, b :: rest =>
    if b ≤ 127 then
      (utf8DecodeGo fuel rest).map (fun cs => Char.ofNat b :: cs)
    else if 194 ≤ b && b ≤ 223 then
      match rest with
      | b2 :: rest2 =>
        if utf8Cont b2 then
          (utf8DecodeGo fuel rest2).map (fun cs => Char.ofNat ((b - 192) * 64 + (b2 - 128)) :: cs)
        else none
      | [] => none
    else if 224 ≤ b && b ≤ 239 then
      match rest with
      | b2 :: b3 :: rest3 =>
        let lo2 := if b = 224 then 160 else 128
        let hi2 := if b = 237 then 159 else 191
        if (lo2 ≤ b2 && b2 ≤ hi2) && utf8Cont b3 then
          (utf8DecodeGo fuel rest3).map
            (fun cs => Char.ofNat ((b - 224) * 4096 + (b2 - 128) * 64 + (b3 - 128)) :: cs)
        else none
      | _ => none
    else if 240 ≤ b && b ≤ 244 then
      match rest with
      | b2 :: b3 :: b4 :: rest4 =>
        let lo2 := if b = 240 then 144 else 128
        let hi2 := if b = 244 then 143 else 191
        if (lo2 ≤ b2 && b2 ≤ hi2) && (utf8Cont b3 && utf8Cont b4) then
          (utf8DecodeGo fuel rest4).map
            (fun cs => Char.ofNat ((b - 240) * 262144 + (b2 - 128) * 4096 + (b3 - 128) * 64 + (b4 - 128)) :: cs)
        else none
      | _ => none
    else none

/-- Rust `str::from_utf8`, returning the decoded characters: strict
UTF-8 with the usual rejection of overlong forms, surrogates and
values above U+10FFFF. -/
def utf8Decode (bs : List Nat) : Option (List Char) := utf8DecodeGo bs.length bs

/-- `split_response` (`main.rs` lines 103-113): find the first
`\r\n\r\n`, keep everything up to and including it as the header block
(decoded as UTF-8), and the rest as the body bytes. -/
def split_response (response : List Nat) : Except DlError (List Char × List Nat) :=
  match findSep response with
  | none => .error .noHeaderEnd
  | some i =>
    match utf8Decode (response.take (i + 4)) with
    | none => .error .utf8Error
    | some headers => .ok (headers, response.drop (i + 4))

/-- Bitwise NOT on `u16` as a `Nat` below 2^16: Rust `!x` flips all 16
bits, which is `65535 - x`. -/
def u16Not (x : Nat) : Nat := 65535 - x

/-- `download_chunk` (`main.rs` lines 67-91) applied to the raw
response bytes the exchanged request produced (the request text itself
is `chunk_request` below; the transport is the oracle). Note the
status guard is a faithful translation of line 80,
`if !status_code != 200 && status_code != 206`, whose `!` is the
bitwise NOT of the `u16` status code. -/
def download_chunk (response : List Nat) : Except DlError (List Nat) :=
  match split_response response with
  | .error e => .error e
  | .ok (headers, body) =>
    let headers_map := parse_headers headers
    match parse_status_code headers with
    | .error e => .error e
    | .ok status_code =>
      if u16Not status_code ≠ 200 ∧ status_code ≠ 206 then
        .error (.unexpectedStatus status_code)
      else
        match hmGet headers_map clKey with
        | none => .error .missingContentLength
        | some v =>
          match parseUIntRust 64 v with
          | none => .error .contentLengthParse
          | some expected => .ok (body.take expected)

/-- `get_total_length` (`main.rs` lines 48-65) applied to the raw
response bytes of the un-ranged request (`length_request` below). -/
def get_total_length (response : List Nat) : Except DlError Nat :=
  match split_response response with
  | .error e => .error e
  | .ok (headers, _) =>
    match hmGet (parse_headers headers) clKey with
    | none => .error .missingContentLength
    | some v =>
      match parseUIntRust 64 v with
      | none => .error .contentLengthParse
      | some n => .ok n

/-- Decimal digits of `n`, as Rust `Display` for `usize` prints them. -/
def natChars (n : Nat) : List Char := Nat.toDigits 10 n

/-- The `range_header` string of `download_chunk` (`main.rs` line 68):
`format!("Range: bytes=...-...\r\n", start, end)`. -/
def range_header (start e : Nat) : List Char :=
  chars ("Range: bytes=") ++ natChars start ++ chars ("-") ++ natChars e ++ chars ("\r\n")

/-- The chunk request text of `download_chunk` (`main.rs` lines 69-72):
`format!("GET / HTTP/1.1\r\nHost: ...\r\n...\r\nConnection: close\r\n\r\n", server, range_header)`. -/
def chunk_request (server : List Char) (start e : Nat) : List Char :=
  chars ("GET / HTTP/1.1\r\nHost: ") ++ server ++ chars ("\r\n")
    ++ range_header start e
    ++ chars ("\r\nConnection: close\r\n\r\n")

/-- The length-discovery request text of `get_total_length`
(`main.rs` lines 49-52). -/
def length_request (server : List Char) : List Char :=
  chars ("GET / HTTP/1.1\r\nHost: ") ++ server ++ chars ("\r\nConnection: close\r\n\r\n")

/-- Outcome of the download loop of `main`:
`finished` when the guard `start < total_length` failed,
`failed` when `download_chunk` returned an error (propagated by `?`),
`moreNeeded` when the supplied oracle responses ran out while the
guard still held — the real loop would issue another request. -/
inductive LoopOutcome where
  | finished (buffer : List Nat)
  | failed (e : DlError) (buffer : List Nat)
  | moreNeeded (start : Nat) (buffer : List Nat)
deriving DecidableEq, Repr

/-- Result of the loop of `main` plus the ranges `(start, end)` of the
chunk requests it issued, in order (a request is recorded when it is
sent, so a failing iteration still records its range). -/
structure LoopTrace where
  outcome : LoopOutcome
  requests : List (Nat × Nat)
deriving DecidableEq, Repr

/-- The `while start < total_length` loop of `main`
(`main.rs` lines 22-34): compute `end`, exchange the chunk request
(its response is taken from the oracle list `rs`), append the accepted
bytes and advance `start` by the accepted length. -/
def runLoop (total : Nat) : List (List Nat) → Nat → List Nat → LoopTrace
  | [], start, buf =>
    if total ≤ start then ⟨.finished buf, []⟩ else ⟨.moreNeeded start buf, []⟩
  | r :: rs, start, buf =>
    if total ≤ start then ⟨.finished buf, []⟩
    else
      let e := if start + CHUNK_SIZE > total then total else start + CHUNK_SIZE
      match download_chunk r with
      | .error err => ⟨.failed err buf, [(start, e)]⟩
      | .ok chunk =>
        let t := runLoop total rs (start + chunk.length) (buf ++ chunk)
        ⟨t.outcome, (start, e) :: t.requests⟩

/-- `main` (`main.rs` lines 13-40) up to the hash computation: length
discovery on the first oracle response, then the download loop on the
chunk responses. An error of `get_total_length` propagates before any
chunk request exists. -/
def mainRun (lenResp : List Nat) (chunkResps : List (List Nat)) : Except DlError LoopTrace :=
  match get_total_length lenResp with
  | .error e => .error e
  | .ok total => .ok (runLoop total chunkResps 0 [])

/-- Chunk requests issued by a run of `mainRun`: none when length
discovery already failed. -/
def issuedRequests : Except DlError LoopTrace → List (Nat × Nat)
  | .error _ => []
  | .ok t => t.requests

/-- The buffer `downloaded_data` carried by a loop outcome. -/
def bufferOutcome : LoopOutcome → List Nat
  | .finished b => b
  | .failed _ b => b
  | .moreNeeded _ b => b

/-- The buffer `downloaded_data` at the end of a loop run. -/
def bufferOf (t : LoopTrace) : List Nat := bufferOutcome t.outcome

/-- Bytes covered by a list of ranges, in order: range `(s, e)`
contributes the offsets `s, s+1, ..., e-1`. -/
def coveredBytes (ranges : List (Nat × Nat)) : List Nat :=
  ranges.flatMap (fun p => List.range' p.1 (p.2 - p.1))

/-- Delivery discipline of an oracle response list in which every
successfully downloaded chunk, consumed while the loop guard held, has
at most the requested `end - start` bytes (no over-delivery). -/
def okDelivery (total : Nat) : Nat → List (List Nat) → Bool
  | _, [] => true
  | start, r :: rs =>
    if total ≤ start then true
    else
      match download_chunk r with
      | .error _ => true
      | .ok chunk =>
        decide (chunk.length ≤ (if start + CHUNK_SIZE > total then total else start + CHUNK_SIZE) - start)
          && okDelivery total (start + chunk.length) rs

/-- Delivery discipline in which every chunk downloads successfully
and has exactly the requested `end - start` bytes (full delivery, no
truncation), as long as the loop guard holds. -/
def fullDelivery (total : Nat) : Nat → List (List Nat) → Bool
  | _, [] => true
  | start, r :: rs =>
    if total ≤ start then true
    else
      match download_chunk r with
      | .error _ => false
      | .ok chunk =>
        (chunk.length == (if start + CHUNK_SIZE > total then total else start + CHUNK_SIZE) - start)
          && fullDelivery total (start + chunk.length) rs

/-- The ranges the loop requests when every chunk delivers exactly the
requested bytes: from `start`, the next range is
`(start, min (start + CHUNK_SIZE) total)` and the cursor moves to its
end. -/
def requestRanges (start total : Nat) : List (Nat × Nat) :=
  if _h : start < total then
    let e := if start + CHUNK_SIZE > total then total else start + CHUNK_SIZE
    (start, e) :: requestRanges e total
  else []
termination_by total - start
decreasing_by
  simp only [CHUNK_SIZE] at *
  split <;> omega

/-- Ceiling of `n / CHUNK_SIZE`. -/
def ceilChunks (n : Nat) : Nat := (n + CHUNK_SIZE - 1) / CHUNK_SIZE

/-- A 206 chunk response with the given `Content-Length` value text
and body bytes. -/
def resp206 (clVal : String) (body : List Nat) : List Nat :=
  bytesOf ("HTTP/1.1 206 Partial Content\r\nContent-Length: " ++ clVal ++ "\r\n\r\n") ++ body

/-- Chunk response declaring zero content: accepted with an empty
payload. -/
def zeroResp : List Nat := resp206 ("0") []

/-- Chunk response delivering exactly the 5 declared bytes. -/
def fullResp5 : List Nat := resp206 ("5") (bytesOf ("Hello"))

/-- Chunk response delivering exactly 1 declared byte. -/
def oneResp : List Nat := resp206 ("1") [65]

/-- Scenario D response: declares 1000 bytes but delivers only 400. -/
def dResp : List Nat := resp206 ("1000") (List.replicate 400 66)

/-- A status-200 chunk response whose status line has four
whitespace-separated fields, so that `parse_status_code` accepts it. -/
def resp200 : List Nat := bytesOf ("HTTP/1.1 200 OK OK\r\nContent-Length: 5\r\n\r\nHello")

/-- A chunk response with status code 65335, the unique code other
than 206 that the buggy guard of line 80 accepts. -/
def resp65335 : List Nat := bytesOf ("HTTP/1.1 65335 A B\r\nContent-Length: 5\r\n\r\nHello")

/-- A 404 response carrying a Content-Length header. -/
def resp404 : List Nat := bytesOf ("HTTP/1.1 404 Not Found\r\nContent-Length: 7\r\n\r\nNotHere")

/-- A length-discovery response with no Content-Length header. -/
def lenRespNoCL : List Nat := bytesOf ("HTTP/1.1 200 OK\r\nServer: x\r\n\r\n")

/-- A length-discovery response whose Content-Length value is not a
number. -/
def lenRespBadCL : List Nat := bytesOf ("HTTP/1.1 200 OK\r\nContent-Length: abc\r\n\r\n")

/-- C1: the claim says a chunk response is accepted exactly when its
status code is 200 or 206. The code (line 80) instead tests
`!status_code != 200 && status_code != 206`, where `!` is the bitwise
NOT of the `u16`, so the accepted codes are 206 and 65335: a
four-field status line with code 200 is rejected with
`UnexpectedStatus`, while code 65335 is accepted. The 404 half of the
claim does hold, and a rejected response contributes no bytes. -/
theorem c1_status_guard_bug :
    download_chunk resp200 = .error (.unexpectedStatus 200)
      ∧ download_chunk resp404 = .error (.unexpectedStatus 404)
      ∧ download_chunk resp65335 = .ok (bytesOf ("Hello")) := by
  refine ⟨rfl, rfl, rfl⟩

/-- C2: the claim says a chunk with zero accepted bytes stops the
loop. The code never checks for a zero-length chunk: with
`total_length = 1` and every response declaring `Content-Length: 0`,
`start` stays 0, so after consuming any number `n` of responses the
loop still demands more — it never terminates. -/
theorem c2_zero_chunk_loops_forever (n : Nat) :
    runLoop 1 (List.replicate n zeroResp) 0 [] =
      ⟨.moreNeeded 0 [], List.replicate n (0, 1)⟩ := by
  induction n with
  | zero => rfl
  | succ k ih =>
    rw [List.replicate_succ, List.replicate_succ, runLoop]
    simp only [show download_chunk zeroResp = Except.ok [] from rfl, CHUNK_SIZE]
    norm_num [ih]

/-- C3: the claim says the request byte string has a single blank line
terminating the headers. The `range_header` of line 68 already ends in
`\r\n` and the format string of lines 69-72 appends another `\r\n`
after it, so every chunk request carries an extra blank line directly
after the Range header; the length-discovery request is as claimed. -/
theorem c3_chunk_request_extra_blank_line :
    chunk_request (chars ("127.0.0.1:8080")) 0 32768
        = chars ("GET / HTTP/1.1\r\nHost: 127.0.0.1:8080\r\nRange: bytes=0-32768\r\n\r\nConnection: close\r\n\r\n")
      ∧ chunk_request (chars ("127.0.0.1:8080")) 0 32768
          ≠ chars ("GET / HTTP/1.1\r\nHost: 127.0.0.1:8080\r\nRange: bytes=0-32768\r\nConnection: close\r\n\r\n")
      ∧ length_request (chars ("127.0.0.1:8080"))
          = chars ("GET / HTTP/1.1\r\nHost: 127.0.0.1:8080\r\nConnection: close\r\n\r\n") := by
  refine ⟨rfl, by decide, rfl⟩

/-- C8 counterexample: `HTTP/1.1 200 OK` is a three-field status line
with a numeric code, yet `parse_status_code` rejects it, because line
135 demands exactly four whitespace-separated fields. -/
theorem c8_three_field_rejected :
    parse_status_code (chars ("HTTP/1.1 200 OK\r\nContent-Length: 5\r\n\r\n"))
      = .error .invalidStatusLine := rfl

/-- C4 counterexample: with `total_length = 1`, a single accepted
chunk response declaring and delivering 5 bytes leaves a buffer of
length 5, violating `buffer.length ≤ total_length`. -/
theorem c4_overdelivery_breaks_invariant :
    ¬ (bufferOf (runLoop 1 [fullResp5] 0 [])).length ≤ 1 := by decide

/-- C6 counterexample: with `total_length = 2`, two chunk responses of
one byte each make the loop issue 2 requests, exceeding
`ceil(total_length / CHUNK_SIZE) = 1`. -/
theorem c6_short_reads_exceed_bound :
    ¬ (runLoop 2 [oneResp, oneResp] 0 []).requests.length ≤ ceilChunks 2 := by decide

/-- C8 amended: `parse_status_code` returns code `c` exactly when the
first line of the header text splits into exactly four
whitespace-separated fields and the second field parses as a `u16`
equal to `c`; whenever the field count differs from four the result is
`InvalidStatusLine` (a three-field line such as `HTTP/1.1 200 OK` is
therefore rejected, see the counterexample); and a four-field line
whose code field does not parse as a `u16` (non-numeric or out of
range) yields the propagated integer-parse error instead. -/
theorem c8_amended_four_fields (h sl : List Char) (rest : List (List Char)) (c : Nat)
    (hl : rustLines h = sl :: rest) :
    (parse_status_code h = .ok c ↔
      (splitWS sl).length = 4 ∧ ((splitWS sl)[1]?).bind (parseUIntRust 16) = some c)
    ∧ ((splitWS sl).length ≠ 4 → parse_status_code h = .error .invalidStatusLine)
    ∧ ((splitWS sl).length = 4 → ((splitWS sl)[1]?).bind (parseUIntRust 16) = none →
        parse_status_code h = .error .intParseError) := by
  unfold parse_status_code
  rw [hl]
  rcases hp : splitWS sl with _ | ⟨a, _ | ⟨b, _ | ⟨d, _ | ⟨e, _ | ⟨f, t5⟩⟩⟩⟩⟩ <;>
    simp only [hp] <;> try simp
  cases hq : parseUIntRust 16 b <;> simp [hq]

/-- C8 witness: a four-field status line with code 206 parses to 206
via the amended characterization. -/
theorem c8_amended_witness :
    parse_status_code (chars ("HTTP/1.1 206 Partial Content\r\nContent-Length: 5\r\n\r\n")) = .ok 206 :=
  ((c8_amended_four_fields
      (chars ("HTTP/1.1 206 Partial Content\r\nContent-Length: 5\r\n\r\n"))
      (chars ("HTTP/1.1 206 Partial Content"))
      [chars ("Content-Length: 5"), []] 206 rfl).1).mpr (by decide)

/-- C10: `get_total_length` never inspects the status line: whenever
the response splits at a header/body boundary and the parsed header
map carries a Content-Length whose value parses as `n`, it returns
`n` — no hypothesis constrains the status line or its code, which may
be 404 or 500 (see the witness). -/
theorem c10_length_ignores_status (raw : List Nat) (h : List Char) (body : List Nat)
    (v : List Char) (n : Nat)
    (hs : split_response raw = .ok (h, body))
    (hv : hmGet (parse_headers h) clKey = some v)
    (hn : parseUIntRust 64 v = some n) :
    get_total_length raw = .ok n := by
  simp only [get_total_length, hs, hv, hn]

/-- C10 witness: a 404 length-discovery response with
`Content-Length: 7` yields total length 7. -/
theorem c10_witness : get_total_length resp404 = .ok 7 :=
  c10_length_ignores_status resp404
    (chars ("HTTP/1.1 404 Not Found\r\nContent-Length: 7\r\n\r\n"))
    (bytesOf ("NotHere")) (chars ("7")) 7 rfl rfl rfl

/-- C9: when the length-discovery response has no Content-Length, the
session fails with `MissingHeader` (here `missingContentLength`), and
when the value does not parse as a non-negative integer it fails with
`ParseError` (here `contentLengthParse`); in both cases no chunk
request is issued. -/
theorem c9_length_errors_precede_requests (raw1 raw2 : List Nat) (h1 h2 : List Char)
    (b1 b2 : List Nat) (v : List Char) (crs : List (List Nat))
    (hs1 : split_response raw1 = .ok (h1, b1))
    (hn1 : hmGet (parse_headers h1) clKey = none)
    (hs2 : split_response raw2 = .ok (h2, b2))
    (hv2 : hmGet (parse_headers h2) clKey = some v)
    (hbad : parseUIntRust 64 v = none) :
    mainRun raw1 crs = .error .missingContentLength
      ∧ mainRun raw2 crs = .error .contentLengthParse
      ∧ issuedRequests (mainRun raw1 crs) = []
      ∧ issuedRequests (mainRun raw2 crs) = [] := by
  have e1 : get_total_length raw1 = .error .missingContentLength := by
    simp only [get_total_length, hs1, hn1]
  have e2 : get_total_length raw2 = .error .contentLengthParse := by
    simp only [get_total_length, hs2, hv2, hbad]
  refine ⟨?_, ?_, ?_, ?_⟩ <;> simp only [mainRun, e1, e2, issuedRequests]

/-- C9 witness: Scenario C — a response without Content-Length fails
with the missing-header error, one with `Content-Length: abc` fails
with the parse error, and neither run issues a chunk request. -/
theorem c9_witness :
    mainRun lenRespNoCL [] = .error .missingContentLength
      ∧ mainRun lenRespBadCL [] = .error .contentLengthParse
      ∧ issuedRequests (mainRun lenRespNoCL []) = []
      ∧ issuedRequests (mainRun lenRespBadCL []) = [] :=
  c9_length_errors_precede_requests lenRespNoCL lenRespBadCL
    (chars ("HTTP/1.1 200 OK\r\nServer: x\r\n\r\n"))
    (chars ("HTTP/1.1 200 OK\r\nContent-Length: abc\r\n\r\n"))
    [] [] (chars ("abc")) [] rfl rfl rfl rfl rfl

/-- C5: for an accepted chunk response whose header map declares
Content-Length `d` over a body of `b = body.length` actual bytes,
`download_chunk` returns exactly the first `min d b` bytes of the
body, and the loop advances the cursor by exactly that accepted
length (appending exactly those bytes), not by the window or the
requested range size. -/
theorem c5_accept_min_and_advance (resp : List Nat) (h : List Char) (body : List Nat)
    (c : Nat) (v : List Char) (d : Nat) (total start : Nat) (rs : List (List Nat))
    (buf : List Nat)
    (hsplit : split_response resp = .ok (h, body))
    (hstatus : parse_status_code h = .ok c)
    (hacc : ¬(u16Not c ≠ 200 ∧ c ≠ 206))
    (hcl : hmGet (parse_headers h) clKey = some v)
    (hparse : parseUIntRust 64 v = some d)
    (hlt : start < total) :
    download_chunk resp = .ok (body.take d)
      ∧ (body.take d).length = min d body.length
      ∧ runLoop total (resp :: rs) start buf
          = ⟨(runLoop total rs (start + min d body.length) (buf ++ body.take d)).outcome,
             (start, if start + CHUNK_SIZE > total then total else start + CHUNK_SIZE)
               :: (runLoop total rs (start + min d body.length) (buf ++ body.take d)).requests⟩ := by
  have hdc : download_chunk resp = .ok (body.take d) := by
    simp only [download_chunk, hsplit, hstatus, if_neg hacc, hcl, hparse]
  have hlen : (body.take d).length = min d body.length := by
    simp [List.length_take]
  refine ⟨hdc, hlen, ?_⟩
  simp only [runLoop, if_neg (by omega : ¬ total ≤ start), hdc, hlen]

/-- C5 witness (Scenario D): a chunk declaring 1000 bytes but
delivering 400 is accepted as exactly those 400 bytes and advances the
cursor by 400. -/
theorem c5_witness :
    download_chunk dResp = .ok ((List.replicate 400 66).take 1000)
      ∧ ((List.replicate 400 66).take 1000).length = min 1000 (List.replicate 400 66).length
      ∧ runLoop 150000 [dResp] 0 []
          = ⟨(runLoop 150000 [] (0 + min 1000 (List.replicate 400 66).length)
                ([] ++ (List.replicate 400 66).take 1000)).outcome,
             (0, if 0 + CHUNK_SIZE > 150000 then 150000 else 0 + CHUNK_SIZE)
               :: (runLoop 150000 [] (0 + min 1000 (List.replicate 400 66).length)
                     ([] ++ (List.replicate 400 66).take 1000)).requests⟩ :=
  c5_accept_min_and_advance dResp
    (chars ("HTTP/1.1 206 Partial Content\r\nContent-Length: 1000\r\n\r\n"))
    (List.replicate 400 66) 206 (chars ("1000")) 1000 150000 0 [] []
    rfl rfl (by decide) rfl rfl (by decide)

/-- Helper: the delivery discipline of a response list restricts to
every prefix of it. -/
theorem okDelivery_append (total : Nat) (xs ys : List (List Nat)) :
    ∀ start, okDelivery total start (xs ++ ys) = true → okDelivery total start xs = true := by
  induction xs with
  | nil => intro start _; rfl
  | cons x xs ih =>
    intro start hok
    rw [List.cons_append, okDelivery] at hok
    rw [okDelivery]
    by_cases h : total ≤ start
    · rw [if_pos h]
    · rw [if_neg h] at hok ⊢
      cases hdc : download_chunk x with
      | error e => rfl
      | ok chunk =>
        rw [hdc] at hok
        simp only [Bool.and_eq_true] at hok ⊢
        exact ⟨hok.1, ih _ hok.2⟩

/-- Helper: loop invariant for C4. The buffer length always equals the
cursor, so as long as no accepted chunk exceeds its requested window,
the buffer never outgrows `total`. -/
theorem runLoop_buffer_le (total : Nat) (rs : List (List Nat)) :
    ∀ start buf, buf.length = start → start ≤ total → okDelivery total start rs = true →
      (bufferOf (runLoop total rs start buf)).length ≤ total := by
  induction rs with
  | nil =>
    intro start buf hlen hle _
    rw [runLoop]
    by_cases h : total ≤ start
    · simp only [if_pos h, bufferOf, bufferOutcome]; omega
    · simp only [if_neg h, bufferOf, bufferOutcome]; omega
  | cons r rs ih =>
    intro start buf hlen hle hok
    rw [okDelivery] at hok
    by_cases h : total ≤ start
    · simp only [runLoop, if_pos h, bufferOf, bufferOutcome]; omega
    · rw [if_neg h] at hok
      simp only [runLoop, if_neg h]
      cases hdc : download_chunk r with
      | error e =>
        show buf.length ≤ total
        omega
      | ok chunk =>
        rw [hdc] at hok
        simp only [Bool.and_eq_true, decide_eq_true_iff] at hok
        obtain ⟨hchunk, htail⟩ := hok
        have he : (if start + CHUNK_SIZE > total then total else start + CHUNK_SIZE) ≤ total := by
          split <;> omega
        exact ih (start + chunk.length) (buf ++ chunk) (by simp [hlen]) (by omega) htail

/-- C4 amended: at every point of a session — after any prefix of the
chunk iterations — the buffer length is at most `total_length`,
provided every accepted chunk consumed while the loop guard held has
at most the requested `end - start` bytes. (Unconditionally the claim
is false: an over-delivering response pushes the buffer past
`total_length`, see the counterexample.) -/
theorem c4_amended_buffer_le (total : Nat) (rs pre rest : List (List Nat))
    (hsplit : rs = pre ++ rest) (hok : okDelivery total 0 rs = true) :
    (bufferOf (runLoop total pre 0 [])).length ≤ total := by
  subst hsplit
  exact runLoop_buffer_le total pre 0 [] rfl (Nat.zero_le _)
    (okDelivery_append total pre rest 0 hok)

/-- C4 witness: a well-behaved single-chunk session with
`total_length = 5` keeps the buffer within 5 bytes. -/
theorem c4_witness : (bufferOf (runLoop 5 [fullResp5] 0 [])).length ≤ 5 :=
  c4_amended_buffer_le 5 [fullResp5] [fullResp5] [] rfl (by decide)

/-- Helper: a nonempty remainder needs at least one chunk request. -/
theorem ceilChunks_pos (d : Nat) (hd : 0 < d) : 1 ≤ ceilChunks d := by
  rw [ceilChunks, Nat.le_div_iff_mul_le (by norm_num [CHUNK_SIZE])]
  simp only [CHUNK_SIZE] at *
  omega

/-- Helper: consuming one full window lowers the chunk ceiling by one. -/
theorem ceilChunks_step (d : Nat) (hd : CHUNK_SIZE ≤ d) :
    ceilChunks d = ceilChunks (d - CHUNK_SIZE) + 1 := by
  rw [ceilChunks, ceilChunks]
  have h1 : d + CHUNK_SIZE - 1 = (d - CHUNK_SIZE + CHUNK_SIZE - 1) + CHUNK_SIZE := by
    simp only [CHUNK_SIZE] at *
    omega
  rw [h1, Nat.add_div_right _ (by norm_num [CHUNK_SIZE])]

/-- Helper: under full delivery the loop issues at most
`ceilChunks (total - start)` requests from cursor `start`. -/
theorem runLoop_count_le (total : Nat) (rs : List (List Nat)) :
    ∀ start buf, fullDelivery total start rs = true →
      (runLoop total rs start buf).requests.length ≤ ceilChunks (total - start) := by
  induction rs with
  | nil =>
    intro start buf _
    rw [runLoop]
    by_cases h : total ≤ start <;> simp [h]
  | cons r rs ih =>
    intro start buf hfd
    rw [fullDelivery] at hfd
    by_cases h : total ≤ start
    · simp [runLoop, h]
    · rw [if_neg h] at hfd
      simp only [runLoop, if_neg h]
      cases hdc : download_chunk r with
      | error e => rw [hdc] at hfd; exact absurd hfd (by simp)
      | ok chunk =>
        rw [hdc] at hfd
        simp only [Bool.and_eq_true, beq_iff_eq] at hfd
        obtain ⟨hlen, htail⟩ := hfd
        have hrec := ih (start + chunk.length) (buf ++ chunk) htail
        simp only [List.length_cons]
        by_cases hbig : start + CHUNK_SIZE > total
        · rw [if_pos hbig] at hlen
          have h0 : total - (start + chunk.length) = 0 := by omega
          rw [h0] at hrec
          have hc0 : ceilChunks 0 = 0 := by simp [ceilChunks, CHUNK_SIZE]
          have h1 : 1 ≤ ceilChunks (total - start) := ceilChunks_pos _ (by omega)
          omega
        · rw [if_neg hbig] at hlen
          have hck : chunk.length = CHUNK_SIZE := by omega
          have key : ceilChunks (total - start)
              = ceilChunks (total - start - CHUNK_SIZE) + 1 :=
            ceilChunks_step _ (by omega)
          have h2 : total - (start + chunk.length) = total - start - CHUNK_SIZE := by omega
          rw [h2] at hrec
          omega

/-- C6 amended: assuming every chunk delivers exactly the requested
number of bytes, the loop issues at most
`ceil(total_length / CHUNK_SIZE)` chunk requests. (Unconditionally the
claim is false: short reads increase the request count, see the
counterexample.) -/
theorem c6_amended_request_bound (total : Nat) (rs : List (List Nat))
    (hfd : fullDelivery total 0 rs = true) :
    (runLoop total rs 0 []).requests.length ≤ ceilChunks total := by
  simpa using runLoop_count_le total rs 0 [] hfd

/-- C6 witness: a fully delivered 5-byte session issues one request,
within the ceiling bound. -/
theorem c6_witness : (runLoop 5 [fullResp5] 0 []).requests.length ≤ ceilChunks 5 :=
  c6_amended_request_bound 5 [fullResp5] (by decide)

/-- Helper: unconditional bounds for every range a loop run records,
whatever the responses deliver and however the run ends (short reads,
failures and exhausted response lists included): each recorded range
is checked against the guard and clamped when it is issued. -/
theorem runLoop_requests_bounds (total : Nat) (rs : List (List Nat)) :
    ∀ start buf, ∀ p ∈ (runLoop total rs start buf).requests,
      start ≤ p.1 ∧ p.1 < p.2 ∧ p.2 ≤ total ∧ p.2 = min (p.1 + CHUNK_SIZE) total := by
  induction rs with
  | nil =>
    intro start buf p hp
    rw [runLoop] at hp
    split at hp <;> exact absurd hp (List.not_mem_nil p)
  | cons r rs ih =>
    intro start buf p hp
    have hc : 0 < CHUNK_SIZE := by norm_num [CHUNK_SIZE]
    by_cases h : total ≤ start
    · simp only [runLoop, if_pos h] at hp
      exact absurd hp (List.not_mem_nil p)
    · simp only [runLoop, if_neg h] at hp
      cases hdc : download_chunk r with
      | error e =>
        rw [hdc] at hp
        have hp' : p ∈ [(start, if start + CHUNK_SIZE > total then total
            else start + CHUNK_SIZE)] := hp
        obtain rfl := List.mem_singleton.mp hp'
        refine ⟨Nat.le_refl _, ?_, ?_, ?_⟩ <;> simp only [] <;> split <;> omega
      | ok chunk =>
        rw [hdc] at hp
        have hp' : p ∈ (start, if start + CHUNK_SIZE > total then total
              else start + CHUNK_SIZE)
            :: (runLoop total rs (start + chunk.length) (buf ++ chunk)).requests := hp
        rcases List.mem_cons.mp hp' with hhead | htail
        · subst hhead
          refine ⟨Nat.le_refl _, ?_, ?_, ?_⟩ <;> simp only [] <;> split <;> omega
        · obtain ⟨h1, h2, h3, h4⟩ := ih (start + chunk.length) (buf ++ chunk) p htail
          exact ⟨by omega, h2, h3, h4⟩

/-- Helper: the generated ranges tile `[start, total)` exactly. -/
theorem requestRanges_cover_aux (total : Nat) :
    ∀ d start, total - start ≤ d →
      coveredBytes (requestRanges start total) = List.range' start (total - start) := by
  intro d
  induction d with
  | zero =>
    intro start hd
    rw [requestRanges, dif_neg (by omega : ¬ start < total)]
    simp [coveredBytes, show total - start = 0 from by omega]
  | succ k ih =>
    intro start hd
    have hc : 0 < CHUNK_SIZE := by norm_num [CHUNK_SIZE]
    rw [requestRanges]
    by_cases h : start < total
    · rw [dif_pos h]
      set e := if start + CHUNK_SIZE > total then total else start + CHUNK_SIZE with hedef
      have hse : start < e ∧ e ≤ total := by rw [hedef]; split <;> omega
      have htail := ih e (by omega)
      simp only [coveredBytes, List.flatMap_cons] at htail ⊢
      rw [htail]
      have happ := List.range'_append start (e - start) (total - e) 1
      rw [one_mul, show start + (e - start) = e from by omega] at happ
      rw [happ, show (total - e) + (e - start) = total - start from by omega]
    · rw [dif_neg h]
      simp [coveredBytes, show total - start = 0 from by omega]

/-- Helper: under full delivery, a finishing loop run issues exactly
the ranges `requestRanges start total`. -/
theorem runLoop_requests_eq (total : Nat) (rs : List (List Nat)) :
    ∀ start buf bufFin, fullDelivery total start rs = true →
      (runLoop total rs start buf).outcome = .finished bufFin →
      (runLoop total rs start buf).requests = requestRanges start total := by
  induction rs with
  | nil =>
    intro start buf bufFin hfd hfin
    rw [runLoop] at hfin ⊢
    by_cases h : total ≤ start
    · rw [if_pos h]
      rw [requestRanges, dif_neg (by omega : ¬ start < total)]
    · rw [if_neg h] at hfin
      simp at hfin
  | cons r rs ih =>
    intro start buf bufFin hfd hfin
    rw [fullDelivery] at hfd
    by_cases h : total ≤ start
    · simp only [runLoop, if_pos h]
      rw [requestRanges, dif_neg (by omega : ¬ start < total)]
    · rw [if_neg h] at hfd
      simp only [runLoop, if_neg h] at hfin ⊢
      cases hdc : download_chunk r with
      | error e =>
        rw [hdc] at hfd
        exact absurd hfd (by simp)
      | ok chunk =>
        rw [hdc] at hfd hfin
        simp only [Bool.and_eq_true, beq_iff_eq] at hfd
        obtain ⟨hlen, htail⟩ := hfd
        have hfin' : (runLoop total rs (start + chunk.length) (buf ++ chunk)).outcome
            = .finished bufFin := hfin
        rw [requestRanges, dif_pos (by omega : start < total)]
        have he : start + chunk.length
            = (if start + CHUNK_SIZE > total then total else start + CHUNK_SIZE) := by
          split at hlen <;> split <;> omega
        have htr : (runLoop total rs (start + chunk.length) (buf ++ chunk)).requests
            = requestRanges (if start + CHUNK_SIZE > total then total else start + CHUNK_SIZE) total := by
          rw [← he]
          exact ih (start + chunk.length) (buf ++ chunk) bufFin htail hfin'
        exact congrArg _ htr

/-- C7: every request range `(start, end)` generated in any session —
short-read, failing and incomplete sessions included — satisfies
`start < end ≤ total_length` (and `0 ≤ start` trivially in `Nat`)
with `end = min (start + CHUNK_SIZE) total_length`; and, assuming
every chunk delivers exactly the requested number of bytes, the
ranges issued across one full session tile `[0, total_length)`
exactly: their concatenated offsets are `0, 1, ..., total_length - 1`
in order, hence no gaps and no overlaps. -/
theorem c7_range_bounds_and_cover (total : Nat) :
    (∀ rs : List (List Nat), ∀ p ∈ (runLoop total rs 0 []).requests,
        p.1 < p.2 ∧ p.2 ≤ total ∧ p.2 = min (p.1 + CHUNK_SIZE) total)
      ∧ (∀ rs : List (List Nat), ∀ bufFin : List Nat,
          fullDelivery total 0 rs = true →
          (runLoop total rs 0 []).outcome = .finished bufFin →
          coveredBytes ((runLoop total rs 0 []).requests) = List.range' 0 total) := by
  constructor
  · intro rs p hp
    obtain ⟨-, h2, h3, h4⟩ := runLoop_requests_bounds total rs 0 [] p hp
    exact ⟨h2, h3, h4⟩
  · intro rs bufFin hfd hfin
    rw [runLoop_requests_eq total rs 0 [] bufFin hfd hfin]
    simpa using requestRanges_cover_aux total total 0 (by omega)

/-- C7 witness: the fully delivered 5-byte session covers offsets
`0..4` exactly. -/
theorem c7_witness :
    coveredBytes ((runLoop 5 [fullResp5] 0 []).requests) = List.range' 0 5 :=
  (c7_range_bounds_and_cover 5).2 [fullResp5] (bytesOf ("Hello")) (by decide) (by decide)
